import Mathlib

/-!
# Nyx orbit-determination core: a shallow embedding

This file embeds, in Lean 4, the parts of the `nyx` astrodynamics library
that the verified claims are about:

* `src/od/simulator/arc.rs` — the tracking-arc simulator
  (`TrackingArcSim::with_rng` / `with_seed`, `generate_measurements`),
  in namespace `Arc`;
* `src/md/trajectory/mod.rs` — trajectory interpolation
  (`Orbit::interpolate`, `Spacecraft::interpolate`), in namespace `Md`;
* `src/dynamics/spacecraft.rs` — the spacecraft dynamics wrapper
  (`Spacecraft::with_srp`, `state`, `eom`), in namespace `Dyn`.

Modelling conventions:

* `hifitime` `Epoch`s and `Duration`s are modelled as integer nanosecond
  counts (`Int`); `hifitime` durations have nanosecond resolution, so
  `Duration::truncated_nanoseconds` is the identity on this model.
  For the interpolation code, epochs are modelled as rational TDB seconds
  (the spec's data model treats TDB/ET as a single time scale).
* `f64` quantities of the interpolation and dynamics code are modelled as
  rationals (`ℚ`): the claims are about exact algebraic structure, not
  rounding.
* The `StdRng` random generator is an abstract state type `Rng`, threaded
  through the device `measure` calls exactly as the `&mut` reference is in
  the source.
* A Rust `HashMap` iteration has no specified order; functions that iterate
  `self.devices` take the iteration order as an explicit `order : List
  String` parameter (a duplicate-free enumeration of the map's keys).
* `Vec` indexing panics are modelled by a dedicated `panicked` result
  constructor; `Option`-returning trajectory queries propagate `none`
  through the runs as `?` propagates errors in the source.
-/

namespace Arc

variable {St Rng Msr : Type}

/-- `Availability` of a tracking device (od/simulator config): either always
visible or bounded by an explicit `Epoch`.  The enum itself lives in a
configuration module not present under `src/`; its two variants are the ones
matched by `src/od/simulator/arc.rs` and listed by the spec (§3, TrkConfig:
"either an explicit Epoch or visible"). -/
inductive Availability where
  | visible : Availability
  | epoch : Int → Availability
deriving DecidableEq

/-- Tracking `Schedule` (spec §3: "continuous or intermittent {on, off}").
`onDur`/`offDur` model the `on`/`off` durations in nanoseconds. -/
inductive Schedule where
  | continuous : Schedule
  | intermittent : (onDur : Int) → (offDur : Int) → Schedule
deriving DecidableEq

/-- Per-device tracking configuration (spec §3 `TrkConfig`); `stop` models
the source field `end` (a Lean keyword).  `sampling` is a duration in
nanoseconds. -/
structure TrkConfig where
  sampling : Int
  start : Availability
  stop : Availability
  schedule : Schedule
deriving DecidableEq

/-- `SchedData`, the per-device pass bookkeeping local to
`generate_measurements` (src/od/simulator/arc.rs, lines 154–159); `stop`
models the source field `end`. -/
structure SchedData where
  start : Option Int
  prev : Option Int
  stop : Option Int
deriving DecidableEq

/-- A tracking device: its name and its `measure` behaviour
(`TrackingDeviceSim::measure`), which may consume randomness and returns
`none` when the state is not visible from the device. -/
structure DeviceM (St Rng Msr : Type) where
  name : String
  measure : St → Rng → Option Msr × Rng

/-- The receiver trajectory, reduced to what the arc simulator reads from it:
its first and last epochs and the `at` query (`sample`), which fails outside
the interpolation span. -/
structure TrajM (St : Type) where
  firstEpoch : Int
  lastEpoch : Int
  sample : Int → Option St

/-- A `hifitime` `TimeSeries`: start and stop epochs and a step, all in
nanoseconds. -/
structure TimeSeries where
  start : Int
  stop : Int
  step : Int
deriving DecidableEq

/-- `TimeSeries::inclusive(start, stop, step)`. -/
def TimeSeries.inclusive (start stop step : Int) : TimeSeries :=
  { start := start, stop := stop, step := step }

/-- The epochs enumerated by an inclusive time series: `start, start + step,
…` while `≤ stop`.  Empty when the step is nonpositive or the span is
negative. -/
def TimeSeries.epochs (ts : TimeSeries) : List Int :=
  if 0 < ts.step ∧ ts.start ≤ ts.stop then
    (List.range (((ts.stop - ts.start) / ts.step).toNat + 1)).map
      (fun k : Nat => ts.start + Int.ofNat k * ts.step)
  else []

/-- The simulator struct `TrackingArcSim` (src/od/simulator/arc.rs, lines
40–64), with the device map kept as the construction list (the source
inserts the devices into a `HashMap` keyed by name; lookup is by name here
too, via `measureOf`) and the configuration map as a partial function. -/
structure TrackingArcSim (St Rng Msr : Type) where
  devices : List (DeviceM St Rng Msr)
  trajectory : TrajM St
  configs : String → Option TrkConfig
  rng : Rng
  time_series : TimeSeries

/-- Result of `TrackingArcSim::with_rng`: a `ConfigError` carrying the
offending device name, a successful simulator, or a Rust panic
(out-of-bounds `Vec` indexing). -/
inductive RunResult (St Rng Msr : Type) where
  | panicked : RunResult St Rng Msr
  | configErr : String → RunResult St Rng Msr
  | ok : TrackingArcSim St Rng Msr → RunResult St Rng Msr

/-- The config-checking loop of `with_rng` (lines 88–98): for each device in
order, look up its configuration and record
`cfg.sampling.truncated_nanoseconds()`; the first device without a
configuration aborts with its name. -/
def collectRates : List (DeviceM St Rng Msr) → (String → Option TrkConfig) →
    Except String (List Int)
  | [], _ => .ok []
  | d :: rest, configs =>
    match configs d.name with
    | some cfg =>
      match collectRates rest configs with
      | .ok rs => .ok (cfg.sampling :: rs)
      | .error e => .error e
    | none => .error d.name

/-- `num::integer::gcd` on `i64`: always nonnegative. -/
def gcdZ (a b : Int) : Int := (Int.gcd a b : Int)

/-- `TrackingArcSim::with_rng` (lines 78–125).  After the configuration
check, the sampling-rate vector is folded with `gcd` starting from its first
element — indexing that panics on an empty device list — and the stored time
series runs inclusively from the trajectory's first to its last epoch with
the folded gcd as step. -/
def with_rng (devices : List (DeviceM St Rng Msr)) (trajectory : TrajM St)
    (configs : String → Option TrkConfig) (rng : Rng) : RunResult St Rng Msr :=
  match collectRates devices configs with
  | .error name => .configErr name
  | .ok [] => .panicked
  | .ok (r0 :: rest) =>
    .ok { devices := devices, trajectory := trajectory, configs := configs,
          rng := rng,
          time_series := TimeSeries.inclusive trajectory.firstEpoch
            trajectory.lastEpoch (List.foldl gcdZ r0 (r0 :: rest)) }

/-- `TrackingArcSim::with_seed` (lines 127–136): seed the generator, then
defer to `with_rng`. `seedFn` abstracts `StdRng::seed_from_u64`. -/
def with_seed (seedFn : Nat → Rng) (devices : List (DeviceM St Rng Msr))
    (trajectory : TrajM St) (configs : String → Option TrkConfig)
    (seed : Nat) : RunResult St Rng Msr :=
  with_rng devices trajectory configs (seedFn seed)

/-- The gcd of a list of nanosecond counts. -/
def listGcd (l : List Int) : Int := l.foldr gcdZ 0

/-- The sampling rates, in truncated nanoseconds, of the supplied devices. -/
def ratesOf (devices : List (DeviceM St Rng Msr))
    (configs : String → Option TrkConfig) : List Int :=
  devices.map fun d =>
    (match configs d.name with
     | some cfg => cfg.sampling
     | none => 0)

theorem gcdZ_comm (a b : Int) : gcdZ a b = gcdZ b a := by
  simp [gcdZ, Int.gcd_comm]

theorem gcdZ_assoc (a b c : Int) : gcdZ (gcdZ a b) c = gcdZ a (gcdZ b c) := by
  simp [gcdZ, Int.gcd, Int.natAbs_ofNat, Nat.gcd_assoc]

theorem gcdZ_self (a : Int) : gcdZ a a = gcdZ a 0 := by
  simp [gcdZ, Int.gcd, Nat.gcd_self, Nat.gcd_zero_right]

theorem foldl_gcdZ_shift (l : List Int) :
    ∀ a b : Int, List.foldl gcdZ (gcdZ a b) l = gcdZ a (List.foldr gcdZ b l) := by
  induction l with
  | nil => intro a b; simp
  | cons c cs ih =>
    intro a b
    have hre : gcdZ (gcdZ a b) c = gcdZ (gcdZ a c) b := by
      rw [gcdZ_assoc, gcdZ_assoc]
      rw [gcdZ_comm b c]
    simp only [List.foldl_cons, List.foldr_cons]
    rw [hre, ih (gcdZ a c) b, gcdZ_assoc]

theorem foldr_gcdZ_absorb (l : List Int) :
    ∀ a : Int, gcdZ a (List.foldr gcdZ a l) = gcdZ a (List.foldr gcdZ 0 l) := by
  induction l with
  | nil => intro a; simpa using gcdZ_self a
  | cons c cs ih =>
    intro a
    simp only [List.foldr_cons]
    rw [← gcdZ_assoc, gcdZ_comm a c, gcdZ_assoc, ih a, ← gcdZ_assoc,
      gcdZ_comm c a, gcdZ_assoc]

/-- The source's fold `rates.iter().fold(rates[0], gcd)` computes the gcd of
the whole rate list. -/
theorem foldl_gcdZ_head (r0 : Int) (rest : List Int) :
    List.foldl gcdZ r0 (r0 :: rest) = listGcd (r0 :: rest) := by
  have h1 : List.foldl gcdZ r0 (r0 :: rest)
      = List.foldl gcdZ (gcdZ r0 r0) rest := by
    simp [List.foldl_cons]
  rw [h1, foldl_gcdZ_shift rest r0 r0, foldr_gcdZ_absorb rest r0]
  simp [listGcd]

theorem listGcd_dvd (l : List Int) : ∀ x ∈ l, listGcd l ∣ x := by
  induction l with
  | nil => intro x hx; cases hx
  | cons c cs ih =>
    intro x hx
    rcases List.mem_cons.mp hx with hx | hx
    · subst hx
      exact Int.gcd_dvd_left
    · exact dvd_trans Int.gcd_dvd_right (ih x hx)

theorem dvd_listGcd (l : List Int) (g : Int) (h : ∀ x ∈ l, g ∣ x) :
    g ∣ listGcd l := by
  induction l with
  | nil => simp [listGcd]
  | cons c cs ih =>
    have h1 : g ∣ c := h c (List.mem_cons_self c cs)
    have h2 : g ∣ listGcd cs := ih fun x hx => h x (List.mem_cons_of_mem c hx)
    exact Int.dvd_gcd h1 h2

theorem collectRates_ok_of_configured (devices : List (DeviceM St Rng Msr))
    (configs : String → Option TrkConfig)
    (h : ∀ d ∈ devices, (configs d.name).isSome = true) :
    collectRates devices configs = .ok (ratesOf devices configs) := by
  induction devices with
  | nil => simp [collectRates, ratesOf]
  | cons d rest ih =>
    have hd : (configs d.name).isSome = true := h d (List.mem_cons_self d rest)
    obtain ⟨cfg, hcfg⟩ := Option.isSome_iff_exists.mp hd
    have hrest := ih fun x hx => h x (List.mem_cons_of_mem d hx)
    simp [collectRates, hcfg, hrest, ratesOf]

theorem collectRates_length (devices : List (DeviceM St Rng Msr))
    (configs : String → Option TrkConfig) (rs : List Int)
    (h : collectRates devices configs = .ok rs) : rs.length = devices.length := by
  induction devices generalizing rs with
  | nil =>
    simp [collectRates] at h
    simp [← h]
  | cons d rest ih =>
    simp only [collectRates] at h
    cases hcfg : configs d.name with
    | none => simp [hcfg] at h
    | some cfg =>
      rw [hcfg] at h
      cases hrec : collectRates rest configs with
      | error e => simp [hrec] at h
      | ok rs0 =>
        rw [hrec] at h
        simp only [Except.ok.injEq] at h
        subst h
        simp [ih rs0 hrec]

theorem collectRates_error_iff (devices : List (DeviceM St Rng Msr))
    (configs : String → Option TrkConfig) :
    (∃ e, collectRates devices configs = .error e) ↔
      ∃ d ∈ devices, configs d.name = none := by
  induction devices with
  | nil => simp [collectRates]
  | cons d rest ih =>
    constructor
    · rintro ⟨e, he⟩
      simp only [collectRates] at he
      cases hcfg : configs d.name with
      | none => exact ⟨d, List.mem_cons_self d rest, hcfg⟩
      | some cfg =>
        rw [hcfg] at he
        cases hrec : collectRates rest configs with
        | error e2 =>
          obtain ⟨d2, hd2, hcfg2⟩ := ih.mp ⟨e2, hrec⟩
          exact ⟨d2, List.mem_cons_of_mem d hd2, hcfg2⟩
        | ok rs => rw [hrec] at he; cases he
    · rintro ⟨d2, hd2, hcfg2⟩
      rcases List.mem_cons.mp hd2 with hd2 | hd2
      · subst hd2
        exact ⟨d2.name, by simp [collectRates, hcfg2]⟩
      · obtain ⟨e, he⟩ := ih.mpr ⟨d2, hd2, hcfg2⟩
        simp only [collectRates]
        cases hcfg : configs d.name with
        | none => exact ⟨d.name, by simp⟩
        | some cfg => exact ⟨e, by simp [he]⟩

/-- Discriminator: did construction return a `ConfigError`? -/
def RunResult.isErr : RunResult St Rng Msr → Bool
  | .configErr _ => true
  | _ => false

/-- Discriminator: did construction succeed? -/
def RunResult.isOk : RunResult St Rng Msr → Bool
  | .ok _ => true
  | _ => false

/-- The stored time series of a successful construction. -/
def RunResult.timeSeriesOf : RunResult St Rng Msr → Option TimeSeries
  | .ok sim => some sim.time_series
  | _ => none

end Arc

namespace Arc

/-- `C4`: for a non-empty, fully configured device list, construction
succeeds and stores the inclusive time series from the trajectory's first to
its last epoch whose step is the gcd, in truncated nanoseconds, of all the
supplied devices' sampling durations (with the gcd characterised by
divisibility). -/
theorem with_rng_time_series {St Rng Msr : Type}
    (devices : List (DeviceM St Rng Msr)) (trajectory : TrajM St)
    (configs : String → Option TrkConfig) (rng : Rng)
    (hne : devices ≠ [])
    (hconf : ∀ d ∈ devices, (configs d.name).isSome = true) :
    (with_rng devices trajectory configs rng).isOk = true
    ∧ (with_rng devices trajectory configs rng).timeSeriesOf
        = some (TimeSeries.inclusive trajectory.firstEpoch trajectory.lastEpoch
            (listGcd (ratesOf devices configs)))
    ∧ (∀ r ∈ ratesOf devices configs, listGcd (ratesOf devices configs) ∣ r)
    ∧ (∀ g : Int, (∀ r ∈ ratesOf devices configs, g ∣ r) →
        g ∣ listGcd (ratesOf devices configs)) := by
  have hok := collectRates_ok_of_configured devices configs hconf
  cases hdev : devices with
  | nil => exact absurd hdev hne
  | cons d rest =>
    subst hdev
    have hrates : ratesOf (d :: rest) configs
        = (match configs d.name with
           | some cfg => cfg.sampling
           | none => 0) :: ratesOf rest configs := by
      simp [ratesOf]
    rw [hrates] at hok
    refine ⟨?_, ?_, listGcd_dvd _, dvd_listGcd _⟩
    · simp [with_rng, hok, RunResult.isOk]
    · simp only [with_rng, hok, RunResult.timeSeriesOf, Option.some.injEq]
      rw [foldl_gcdZ_head]
      rw [hrates]

/-- `C7`: for a non-empty device list, `with_rng` returns a `ConfigError`
exactly when some supplied device's name has no configuration entry, and
succeeds exactly when every supplied device is configured — entries for
other names are irrelevant. -/
theorem with_rng_configError_iff {St Rng Msr : Type}
    (devices : List (DeviceM St Rng Msr)) (trajectory : TrajM St)
    (configs : String → Option TrkConfig) (rng : Rng)
    (hne : devices ≠ []) :
    ((with_rng devices trajectory configs rng).isErr = true
      ↔ ∃ d ∈ devices, configs d.name = none)
    ∧ ((with_rng devices trajectory configs rng).isOk = true
      ↔ ∀ d ∈ devices, (configs d.name).isSome = true) := by
  constructor
  · constructor
    · intro herr
      unfold with_rng at herr
      cases hcr : collectRates devices configs with
      | error e =>
        exact (collectRates_error_iff devices configs).mp ⟨e, hcr⟩
      | ok rs =>
        rw [hcr] at herr
        cases rs with
        | nil => simp [RunResult.isErr] at herr
        | cons r0 rest => simp [RunResult.isErr] at herr
    · intro hmiss
      obtain ⟨e, he⟩ := (collectRates_error_iff devices configs).mpr hmiss
      simp [with_rng, he, RunResult.isErr]
  · constructor
    · intro hokc d hd
      by_contra hnone
      have hnone2 : configs d.name = none := by
        cases h : configs d.name with
        | none => rfl
        | some cfg => rw [h] at hnone; simp at hnone
      obtain ⟨e, he⟩ :=
        (collectRates_error_iff devices configs).mpr ⟨d, hd, hnone2⟩
      simp [with_rng, he, RunResult.isOk] at hokc
    · intro hconf
      have hok := collectRates_ok_of_configured devices configs hconf
      cases hdev : devices with
      | nil => exact absurd hdev hne
      | cons d rest =>
        subst hdev
        have : ratesOf (d :: rest) configs
            = (match configs d.name with
               | some cfg => cfg.sampling
               | none => 0) :: ratesOf rest configs := by
          simp [ratesOf]
        rw [this] at hok
        simp [with_rng, hok, RunResult.isOk]

/-- `C10`: `with_rng` panics (indexes the empty sampling-rate vector) exactly
on the empty device list; with a non-empty list the index is in bounds and
the only failure is a `ConfigError` naming an unconfigured supplied
device. -/
theorem with_rng_empty_panics {St Rng Msr : Type} :
    (∀ (trajectory : TrajM St) (configs : String → Option TrkConfig) (rng : Rng),
      with_rng ([] : List (DeviceM St Rng Msr)) trajectory configs rng = .panicked)
    ∧ (∀ (devices : List (DeviceM St Rng Msr)) (trajectory : TrajM St)
        (configs : String → Option TrkConfig) (rng : Rng), devices ≠ [] →
        with_rng devices trajectory configs rng ≠ .panicked
        ∧ (∀ n, with_rng devices trajectory configs rng = .configErr n →
            ∃ d ∈ devices, d.name = n ∧ configs d.name = none)) := by
  constructor
  · intro trajectory configs rng
    simp [with_rng, collectRates]
  · intro devices trajectory configs rng hne
    constructor
    · cases hcr : collectRates devices configs with
      | error e => simp [with_rng, hcr]
      | ok rs =>
        have hlen := collectRates_length devices configs rs hcr
        cases rs with
        | nil =>
          exfalso
          apply hne
          cases devices with
          | nil => rfl
          | cons d rest => simp at hlen
        | cons r0 rest => simp [with_rng, hcr]
    · intro n hn
      unfold with_rng at hn
      cases hcr : collectRates devices configs with
      | error e =>
        rw [hcr] at hn
        simp only [RunResult.configErr.injEq] at hn
        subst hn
        clear hne
        induction devices with
        | nil => simp [collectRates] at hcr
        | cons d rest ih =>
          simp only [collectRates] at hcr
          cases hcfg : configs d.name with
          | none =>
            rw [hcfg] at hcr
            simp only [Except.error.injEq] at hcr
            exact ⟨d, List.mem_cons_self d rest, hcr, hcfg⟩
          | some cfg =>
            rw [hcfg] at hcr
            cases hrec : collectRates rest configs with
            | error e2 =>
              rw [hrec] at hcr
              simp only [Except.error.injEq] at hcr
              subst hcr
              obtain ⟨d2, hd2, hname, hc2⟩ := ih hrec
              exact ⟨d2, List.mem_cons_of_mem d hd2, hname, hc2⟩
            | ok rs => rw [hrec] at hcr; cases hcr
      | ok rs =>
        rw [hcr] at hn
        cases rs with
        | nil => cases hn
        | cons r0 rest => cases hn

end Arc

namespace Arc

/-- The start-availability check (lines 176–190): a device whose tracking
start epoch lies in the future is skipped. -/
def startBlocked (cfg : TrkConfig) (epoch : Int) : Bool :=
  match cfg.start with
  | .epoch s => epoch < s
  | _ => false

/-- The end-availability check (lines 192–206): a device whose tracking end
epoch has passed is skipped. -/
def endBlocked (cfg : TrkConfig) (epoch : Int) : Bool :=
  match cfg.stop with
  | .epoch e => e < epoch
  | _ => false

/-- The schedule check (lines 208–249), run only when the device already has
`SchedData`: skip when the previous sample is closer than the sampling
duration, and — under an intermittent schedule — when the current pass has
been on for longer than `on`, or the recorded pass end is within `off`. -/
def schedBlocked (cfg : TrkConfig) (epoch : Int) (entry : Option SchedData) : Bool :=
  match entry with
  | none => false
  | some ds =>
    (match ds.prev with
     | some p => decide (epoch - p < cfg.sampling)
     | none => false)
    || (match cfg.schedule with
        | .intermittent onDur offDur =>
          (match ds.start with
           | some s => decide (onDur < epoch - s)
           | none => false)
          || (match ds.stop with
              | some e => decide (epoch - e ≤ offDur)
              | none => false)
        | .continuous => false)

/-- The in-loop run state of `generate_measurements`: the `sched` map, the
random generator, and the measurement vector. -/
structure GenState (Rng Msr : Type) where
  sched : String → Option SchedData
  rng : Rng
  msrs : List (String × Msr)

/-- The `sched` update after a successful measurement (lines 259–279): set
the pass start if absent, set `prev` to now, clear the recorded end. -/
def msrSched (m : String → Option SchedData) (name : String) (epoch : Int) :
    String → Option SchedData :=
  fun k =>
    if k = name then
      some (match m name with
        | some ds =>
          { start := match ds.start with
              | none => some epoch
              | some s => some s,
            prev := some epoch, stop := none }
        | none => { start := some epoch, prev := some epoch, stop := none })
    else m k

/-- The `sched` update after a failed measurement (lines 280–286): when an
entry exists and no end is recorded, clear the pass start and record the
end. -/
def noMsrSched (m : String → Option SchedData) (name : String) (epoch : Int) :
    String → Option SchedData :=
  fun k =>
    if k = name then
      match m name with
      | some ds =>
        if ds.stop = none then
          some { start := none, prev := ds.prev, stop := some epoch }
        else some ds
      | none => none
    else m k

/-- One iteration of the inner device loop of `generate_measurements`
(lines 173–287) at epoch `epoch` for the device called `name`:
availability, end and schedule checks, then `measure`, the measurement push
and the `sched` bookkeeping.  The `*_trace_msg` hash sets of the source only
deduplicate `trace!` log lines and never influence the arc; they are
omitted. -/
def devStep (measureOf : String → St → Rng → Option Msr × Rng)
    (cfgs : String → TrkConfig) (epoch : Int) (state : St)
    (gs : GenState Rng Msr) (name : String) : GenState Rng Msr :=
  let cfg := cfgs name
  if startBlocked cfg epoch || endBlocked cfg epoch
      || schedBlocked cfg epoch (gs.sched name) then gs
  else
    match measureOf name state gs.rng with
    | (some msr, rng2) =>
      { sched := msrSched gs.sched name epoch, rng := rng2,
        msrs := gs.msrs ++ [(name, msr)] }
    | (none, rng2) =>
      { sched := noMsrSched gs.sched name epoch, rng := rng2, msrs := gs.msrs }

/-- One iteration of the outer epoch loop (lines 170–288): query the
trajectory (propagating its failure, as `?` does) and run the device loop in
the map's iteration order. -/
def tickStep (measureOf : String → St → Rng → Option Msr × Rng)
    (cfgs : String → TrkConfig) (trajAt : Int → Option St)
    (order : List String) (acc : Option (GenState Rng Msr)) (epoch : Int) :
    Option (GenState Rng Msr) :=
  match acc with
  | none => none
  | some gs =>
    match trajAt epoch with
    | none => none
    | some st => some (order.foldl (fun g n => devStep measureOf cfgs epoch st g n) gs)

/-- The body of `generate_measurements` over an explicit tick list, starting
from an empty `sched` map and the stored generator, and returning the
`(device name, measurement)` vector. -/
def generateAux (measureOf : String → St → Rng → Option Msr × Rng)
    (cfgs : String → TrkConfig) (trajAt : Int → Option St)
    (order : List String) (ticks : List Int) (rng : Rng) :
    Option (List (String × Msr)) :=
  (ticks.foldl (tickStep measureOf cfgs trajAt order)
    (some { sched := fun _ => none, rng := rng, msrs := [] })).map GenState.msrs

/-- Device lookup in the simulator's device map. -/
def measureOf (devices : List (DeviceM St Rng Msr)) (n : String) :
    St → Rng → Option Msr × Rng :=
  match devices.find? (fun d => d.name == n) with
  | some d => d.measure
  | none => fun _ r => (none, r)

/-- The `self.configs[name]` lookup of the device loop.  In every simulator
built by `with_rng` each device key is configured, so the default (which in
the source would be an indexing panic) is dead on reachable runs. -/
def cfgTotal (configs : String → Option TrkConfig) (n : String) : TrkConfig :=
  (configs n).getD
    { sampling := 0, start := .visible, stop := .visible, schedule := .continuous }

/-- `TrackingArcSim::generate_measurements` (lines 152–309), parameterised by
the `HashMap` iteration order of `self.devices`.  The source mutates
`self.rng` across calls; only the returned arc is modelled, as no claim
reads the evolved generator. -/
def TrackingArcSim.generate_measurements (sim : TrackingArcSim St Rng Msr)
    (order : List String) : Option (List (String × Msr)) :=
  generateAux (measureOf sim.devices) (cfgTotal sim.configs)
    sim.trajectory.sample order sim.time_series.epochs sim.rng

/-- The epochs, in arc order, of the measurements a given device contributed
to a measurement vector (`μ` reads the time tag a measurement carries). -/
def epochsOf (μ : Msr → Int) (n : String) (msrs : List (String × Msr)) : List Int :=
  (msrs.filter (fun p => p.1 == n)).map (fun p => μ p.2)

theorem epochs_pairwise (ts : TimeSeries) : ts.epochs.Pairwise (· < ·) := by
  unfold TimeSeries.epochs
  split
  · next h =>
    refine List.pairwise_map.mpr ?_
    refine (List.pairwise_lt_range _).imp ?_
    intro a b hab
    have h1 : Int.ofNat a < Int.ofNat b := Int.ofNat_lt.mpr hab
    have h2 := mul_lt_mul_of_pos_right h1 h.1
    omega
  · simp

end Arc

namespace Arc

/-- A concrete always-visible device called "a" whose measurement records the
current generator state (so distinct draws are distinguishable), advancing
the generator by one. -/
def devA : DeviceM Int Nat Nat :=
  { name := "a", measure := fun _ r => (some r, r + 1) }

/-- Like `devA` but called "b". -/
def devB : DeviceM Int Nat Nat :=
  { name := "b", measure := fun _ r => (some r, r + 1) }

/-- A one-sample trajectory whose span is the single epoch 0. -/
def trajC : TrajM Int :=
  { firstEpoch := 0, lastEpoch := 0, sample := fun t => some t }

/-- Every device samples at 1 ns, always visible, continuous schedule. -/
def configsC : String → Option TrkConfig :=
  fun _ => some { sampling := 1, start := .visible, stop := .visible,
                  schedule := .continuous }

/-- One full execution of `with_seed` (seed 0) followed by
`generate_measurements`, as a function of the `HashMap` iteration order of
the two-device map. -/
def seededRun (order : List String) : Option (List (String × Nat)) :=
  match with_seed (fun s => s) [devA, devB] trajC configsC 0 with
  | .ok sim => sim.generate_measurements order
  | _ => none

/-- `C1`: two executions of `with_seed` + `generate_measurements` on the same
devices, trajectory, configurations and seed, differing only in the
(unspecified, run-dependent) `HashMap` iteration order of `self.devices`,
produce different arcs: the `(device, measurement)` pairs come in a
different order and the generator draws are paired with different devices. -/
theorem generate_depends_on_device_iteration_order :
    seededRun ["a", "b"] = some [("a", 0), ("b", 1)]
    ∧ seededRun ["b", "a"] = some [("b", 0), ("a", 1)]
    ∧ seededRun ["a", "b"] ≠ seededRun ["b", "a"] := by
  refine ⟨by decide, by decide, by decide⟩

/-- The simulator that `with_seed (fun s => s) [devA, devB] trajC configsC 0`
builds. -/
def simC : TrackingArcSim Int Nat Nat :=
  { devices := [devA, devB], trajectory := trajC, configs := configsC,
    rng := 0, time_series := { start := 0, stop := 0, step := 1 } }

/-- `C3`, counterexample: at the single tick of this arc (epoch 0) both
devices are available and visible — both `measure` calls return a
measurement — and the generated arc contains a measurement from *each* of
the two devices at that tick, not from exactly one (the claimed
first-configured-wins policy). -/
theorem tick_emits_all_visible_devices :
    simC.time_series.epochs = [0]
    ∧ simC.generate_measurements ["a", "b"] = some [("a", 0), ("b", 1)]
    ∧ List.map Prod.fst [("a", (0 : Nat)), ("b", 1)] ≠ ["a"]
    ∧ List.map Prod.fst [("a", (0 : Nat)), ("b", 1)] ≠ ["b"] := by
  refine ⟨by decide, by decide, by decide, by decide⟩

/-- `C3`, amended: at each tick, *every* device that passes the availability,
end and schedule checks and whose `measure` call returns a measurement emits
— the arc gains exactly one `(name, measurement)` entry for it — and a
device that fails a check or whose `measure` returns `none` contributes
nothing at that tick. -/
theorem devStep_emits_at_most_once {St Rng Msr : Type}
    (measureOf : String → St → Rng → Option Msr × Rng)
    (cfgs : String → TrkConfig) (t : Int) (st : St)
    (gs : GenState Rng Msr) (name : String) :
    (∃ m rng2,
        (startBlocked (cfgs name) t || endBlocked (cfgs name) t
          || schedBlocked (cfgs name) t (gs.sched name)) = false
        ∧ measureOf name st gs.rng = (some m, rng2)
        ∧ (devStep measureOf cfgs t st gs name).msrs = gs.msrs ++ [(name, m)])
    ∨ ((devStep measureOf cfgs t st gs name).msrs = gs.msrs
        ∧ ((startBlocked (cfgs name) t || endBlocked (cfgs name) t
            || schedBlocked (cfgs name) t (gs.sched name)) = true
          ∨ ∃ rng2, measureOf name st gs.rng = (none, rng2))) := by
  unfold devStep
  by_cases hb : (startBlocked (cfgs name) t || endBlocked (cfgs name) t
      || schedBlocked (cfgs name) t (gs.sched name)) = true
  · right
    simp [hb]
  · have hb2 : (startBlocked (cfgs name) t || endBlocked (cfgs name) t
        || schedBlocked (cfgs name) t (gs.sched name)) = false := by
      simpa using hb
    rcases hmo : measureOf name st gs.rng with ⟨o, rng2⟩
    cases o with
    | some m =>
      left
      refine ⟨m, rng2, hb2, rfl, ?_⟩
      simp [hb2]
    | none =>
      right
      refine ⟨?_, Or.inr ⟨rng2, rfl⟩⟩
      simp [hb2]

end Arc

namespace Arc

theorem epochsOf_append_self (μ : Msr → Int) (n : String)
    (msrs : List (String × Msr)) (m : Msr) :
    epochsOf μ n (msrs ++ [(n, m)]) = epochsOf μ n msrs ++ [μ m] := by
  simp [epochsOf, List.filter_append]

theorem epochsOf_append_other (μ : Msr → Int) {n name : String} (h : name ≠ n)
    (msrs : List (String × Msr)) (m : Msr) :
    epochsOf μ n (msrs ++ [(name, m)]) = epochsOf μ n msrs := by
  simp [epochsOf, List.filter_append, h]

theorem devStep_sched_other (mf : String → St → Rng → Option Msr × Rng)
    (cfgs : String → TrkConfig) (t : Int) (st : St) (gs : GenState Rng Msr)
    {n name : String} (h : n ≠ name) :
    (devStep mf cfgs t st gs name).sched n = gs.sched n := by
  unfold devStep
  by_cases hb : (startBlocked (cfgs name) t || endBlocked (cfgs name) t
      || schedBlocked (cfgs name) t (gs.sched name)) = true
  · simp [hb]
  · rcases hmo : mf name st gs.rng with ⟨o, rng2⟩
    cases o <;> simp [hb, hmo, msrSched, noMsrSched, h]

theorem devStep_epochs_other (mf : String → St → Rng → Option Msr × Rng)
    (cfgs : String → TrkConfig) (t : Int) (st : St) (gs : GenState Rng Msr)
    (μ : Msr → Int) {n name : String} (h : n ≠ name) :
    epochsOf μ n (devStep mf cfgs t st gs name).msrs = epochsOf μ n gs.msrs := by
  unfold devStep
  by_cases hb : (startBlocked (cfgs name) t || endBlocked (cfgs name) t
      || schedBlocked (cfgs name) t (gs.sched name)) = true
  · simp [hb]
  · rcases hmo : mf name st gs.rng with ⟨o, rng2⟩
    cases o
    · simp [hb, hmo]
    · simp only [hb, hmo]
      simp only [Bool.false_eq_true, if_false]
      exact epochsOf_append_other μ (Ne.symm h) gs.msrs _

/-- The per-device run invariant at bound `B`: the device's measurement
epochs are strictly increasing with gaps of at least its sampling duration,
they respect its explicit availability bounds, they do not exceed `B`, and
the `SchedData` entry exists exactly when the device has measured, with
`prev` holding its most recent measurement epoch. -/
def DevInv (cfg : TrkConfig) (entry : Option SchedData) (es : List Int)
    (B : Int) : Prop :=
  es.Chain' (fun a b => a < b ∧ a + cfg.sampling ≤ b)
  ∧ (∀ e ∈ es, (∀ s, cfg.start = .epoch s → s ≤ e)
      ∧ (∀ e2, cfg.stop = .epoch e2 → e ≤ e2))
  ∧ (∀ e ∈ es, e ≤ B)
  ∧ (match entry with
     | none => es = []
     | some ds => ∃ p, ds.prev = some p ∧ es.getLast? = some p)

theorem DevInv.mono {cfg : TrkConfig} {entry : Option SchedData}
    {es : List Int} {B B2 : Int} (h : DevInv cfg entry es B) (hBB : B ≤ B2) :
    DevInv cfg entry es B2 :=
  ⟨h.1, h.2.1, fun e he => le_trans (h.2.2.1 e he) hBB, h.2.2.2⟩

theorem devStep_inv (mf : String → St → Rng → Option Msr × Rng)
    (cfgs : String → TrkConfig) (μ : Msr → Int) (t : Int) (st : St)
    (gs : GenState Rng Msr) (n : String) {B : Int}
    (Htagt : ∀ r m r2, mf n st r = (some m, r2) → μ m = t)
    (hB : B < t)
    (h : DevInv (cfgs n) (gs.sched n) (epochsOf μ n gs.msrs) B) :
    DevInv (cfgs n) ((devStep mf cfgs t st gs n).sched n)
      (epochsOf μ n (devStep mf cfgs t st gs n).msrs) t := by
  by_cases hb : (startBlocked (cfgs n) t || endBlocked (cfgs n) t
      || schedBlocked (cfgs n) t (gs.sched n)) = true
  · have hred : devStep mf cfgs t st gs n = gs := by
      unfold devStep
      simp [hb]
    rw [hred]
    exact h.mono (le_of_lt hB)
  · have hb2 : (startBlocked (cfgs n) t || endBlocked (cfgs n) t
        || schedBlocked (cfgs n) t (gs.sched n)) = false := by simpa using hb
    have hstart : startBlocked (cfgs n) t = false := by
      rcases Bool.or_eq_false_iff.mp hb2 with ⟨h1, _⟩
      exact (Bool.or_eq_false_iff.mp h1).1
    have hend : endBlocked (cfgs n) t = false := by
      rcases Bool.or_eq_false_iff.mp hb2 with ⟨h1, _⟩
      exact (Bool.or_eq_false_iff.mp h1).2
    have hsched : schedBlocked (cfgs n) t (gs.sched n) = false :=
      (Bool.or_eq_false_iff.mp hb2).2
    rcases hmo : mf n st gs.rng with ⟨o, rng2⟩
    cases o with
    | none =>
      have hred : devStep mf cfgs t st gs n
          = { sched := noMsrSched gs.sched n t, rng := rng2, msrs := gs.msrs } := by
        unfold devStep
        simp [hb2, hmo]
      rw [hred]
      obtain ⟨hchain, hbnd, hle, hentry⟩ := h
      refine ⟨hchain, hbnd, fun e he => le_trans (hle e he) (le_of_lt hB), ?_⟩
      simp only [noMsrSched, if_pos rfl]
      cases hget : gs.sched n with
      | none =>
        rw [hget] at hentry
        exact hentry
      | some ds =>
        rw [hget] at hentry
        obtain ⟨p, hp, hlast⟩ := hentry
        by_cases hstop : ds.stop = none
        · simp only [hstop, if_pos rfl]
          exact ⟨p, hp, hlast⟩
        · simp only [if_neg hstop]
          exact ⟨p, hp, hlast⟩
    | some m =>
      have hμ : μ m = t := Htagt gs.rng m rng2 hmo
      have hred : devStep mf cfgs t st gs n
          = { sched := msrSched gs.sched n t, rng := rng2,
              msrs := gs.msrs ++ [(n, m)] } := by
        unfold devStep
        simp [hb2, hmo]
      rw [hred]
      obtain ⟨hchain, hbnd, hle, hentry⟩ := h
      have hes : epochsOf μ n (gs.msrs ++ [(n, m)])
          = epochsOf μ n gs.msrs ++ [t] := by
        rw [epochsOf_append_self, hμ]
      rw [hes]
      have hnewbound : (∀ s, (cfgs n).start = .epoch s → s ≤ t)
          ∧ (∀ e2, (cfgs n).stop = .epoch e2 → t ≤ e2) := by
        constructor
        · intro s hs
          unfold startBlocked at hstart
          rw [hs] at hstart
          simp at hstart
          omega
        · intro e2 he2
          unfold endBlocked at hend
          rw [he2] at hend
          simp at hend
          omega
      refine ⟨?_, ?_, ?_, ?_⟩
      · rw [List.chain'_append]
        refine ⟨hchain, List.chain'_singleton t, ?_⟩
        intro x hx y hy
        simp only [List.head?_cons, Option.mem_def, Option.some.injEq] at hy
        subst hy
        have hxmem : x ∈ epochsOf μ n gs.msrs := List.mem_of_mem_getLast? hx
        have hxB : x ≤ B := hle x hxmem
        refine ⟨lt_of_le_of_lt hxB hB, ?_⟩
        -- x is the device's previous measurement epoch, so the schedule's
        -- sampling gate applies: t - x ≥ sampling.
        cases hget : gs.sched n with
        | none =>
          rw [hget] at hentry
          rw [hentry] at hx
          simp at hx
        | some ds =>
          rw [hget] at hentry
          obtain ⟨p, hp, hlast⟩ := hentry
          have hxp : x = p := by
            simp only [Option.mem_def] at hx
            rw [hx] at hlast
            exact (Option.some.injEq _ _).mp hlast
          subst hxp
          unfold schedBlocked at hsched
          rw [hget] at hsched
          rcases Bool.or_eq_false_iff.mp hsched with ⟨hprev, _⟩
          rw [hp] at hprev
          simp at hprev
          omega
      · intro e he
        rcases List.mem_append.mp he with he | he
        · exact hbnd e he
        · simp only [List.mem_singleton] at he
          subst he
          exact hnewbound
      · intro e he
        rcases List.mem_append.mp he with he | he
        · exact le_trans (hle e he) (le_of_lt hB)
        · simp only [List.mem_singleton] at he
          omega
      · simp only [msrSched, if_pos rfl]
        cases hget : gs.sched n with
        | none => exact ⟨t, rfl, List.getLast?_concat _⟩
        | some ds => exact ⟨t, rfl, List.getLast?_concat _⟩

end Arc

namespace Arc

theorem foldl_devStep_proj_other (mf : String → St → Rng → Option Msr × Rng)
    (cfgs : String → TrkConfig) (t : Int) (st : St) (μ : Msr → Int)
    {n : String} :
    ∀ (order : List String), n ∉ order → ∀ gs : GenState Rng Msr,
      ((order.foldl (fun g nm => devStep mf cfgs t st g nm) gs).sched n
        = gs.sched n)
      ∧ (epochsOf μ n
          (order.foldl (fun g nm => devStep mf cfgs t st g nm) gs).msrs
        = epochsOf μ n gs.msrs) := by
  intro order
  induction order with
  | nil => intro _ gs; exact ⟨rfl, rfl⟩
  | cons nm rest ih =>
    intro hmem gs
    have hne : n ≠ nm := fun h => hmem (h ▸ List.mem_cons_self nm rest)
    have hrest : n ∉ rest := fun h => hmem (List.mem_cons_of_mem nm h)
    simp only [List.foldl_cons]
    obtain ⟨h1, h2⟩ := ih hrest (devStep mf cfgs t st gs nm)
    exact ⟨h1.trans (devStep_sched_other mf cfgs t st gs hne),
      h2.trans (devStep_epochs_other mf cfgs t st gs μ hne)⟩

theorem foldl_devStep_inv (mf : String → St → Rng → Option Msr × Rng)
    (cfgs : String → TrkConfig) (μ : Msr → Int) (t : Int) (st : St)
    {n : String} {B : Int}
    (Htagt : ∀ r m r2, mf n st r = (some m, r2) → μ m = t) (hB : B < t) :
    ∀ (order : List String), order.Nodup → ∀ gs : GenState Rng Msr,
      DevInv (cfgs n) (gs.sched n) (epochsOf μ n gs.msrs) B →
      DevInv (cfgs n)
        ((order.foldl (fun g nm => devStep mf cfgs t st g nm) gs).sched n)
        (epochsOf μ n
          (order.foldl (fun g nm => devStep mf cfgs t st g nm) gs).msrs) t := by
  intro order
  induction order with
  | nil =>
    intro _ gs h
    exact h.mono (le_of_lt hB)
  | cons nm rest ih =>
    intro hnd gs h
    obtain ⟨hnm, hndrest⟩ := List.nodup_cons.mp hnd
    simp only [List.foldl_cons]
    by_cases hn : nm = n
    · subst hn
      have hstep := devStep_inv mf cfgs μ t st gs nm Htagt hB h
      obtain ⟨h1, h2⟩ := foldl_devStep_proj_other mf cfgs t st μ rest hnm
        (devStep mf cfgs t st gs nm)
      rw [h1, h2]
      exact hstep
    · have hgs1sched := devStep_sched_other mf cfgs t st gs
        (fun hcon => hn hcon.symm)
      have hgs1msrs := devStep_epochs_other mf cfgs t st gs μ
        (fun hcon => hn hcon.symm)
      exact ih hndrest (devStep mf cfgs t st gs nm)
        (by rw [hgs1sched, hgs1msrs]; exact h)

theorem foldl_tickStep_none (mf : String → St → Rng → Option Msr × Rng)
    (cfgs : String → TrkConfig) (trajAt : Int → Option St)
    (order : List String) :
    ∀ ticks : List Int,
      ticks.foldl (tickStep mf cfgs trajAt order)
        (none : Option (GenState Rng Msr)) = none := by
  intro ticks
  induction ticks with
  | nil => rfl
  | cons t ts ih => simpa [tickStep] using ih

theorem run_inv (mf : String → St → Rng → Option Msr × Rng)
    (cfgs : String → TrkConfig) (trajAt : Int → Option St)
    (order : List String) (μ : Msr → Int) (stEpoch : St → Int) {n : String}
    (HtagG : ∀ (st : St) (r : Rng) m r2, mf n st r = (some m, r2) → μ m = stEpoch st)
    (Htraj : ∀ (t : Int) (st : St), trajAt t = some st → stEpoch st = t)
    (Hnodup : order.Nodup) :
    ∀ (ticks : List Int), ticks.Pairwise (· < ·) →
      ∀ (gs : GenState Rng Msr) (B : Int), (∀ t ∈ ticks, B < t) →
      DevInv (cfgs n) (gs.sched n) (epochsOf μ n gs.msrs) B →
      ∀ gs2, ticks.foldl (tickStep mf cfgs trajAt order) (some gs) = some gs2 →
      ∃ B2, DevInv (cfgs n) (gs2.sched n) (epochsOf μ n gs2.msrs) B2 := by
  intro ticks
  induction ticks with
  | nil =>
    intro _ gs B _ h gs2 hfold
    simp only [List.foldl_nil, Option.some.injEq] at hfold
    subst hfold
    exact ⟨B, h⟩
  | cons t ts ih =>
    intro hpw gs B hlow h gs2 hfold
    simp only [List.foldl_cons] at hfold
    rcases htr : trajAt t with _ | st
    · rw [show tickStep mf cfgs trajAt order (some gs) t = none by
        simp [tickStep, htr]] at hfold
      rw [foldl_tickStep_none] at hfold
      cases hfold
    · rw [show tickStep mf cfgs trajAt order (some gs) t
          = some (order.foldl (fun g nm => devStep mf cfgs t st g nm) gs) by
        simp [tickStep, htr]] at hfold
      have hst : stEpoch st = t := Htraj t st htr
      have hBt : B < t := hlow t (List.mem_cons_self t ts)
      have hTagt : ∀ r m r2, mf n st r = (some m, r2) → μ m = t := by
        intro r m r2 hr
        rw [HtagG st r m r2 hr, hst]
      have hinv1 := foldl_devStep_inv mf cfgs μ t st hTagt hBt order Hnodup gs h
      exact ih (List.Pairwise.of_cons hpw)
        (order.foldl (fun g nm => devStep mf cfgs t st g nm) gs) t
        (fun t2 ht2 => List.rel_of_pairwise_cons hpw ht2) hinv1 gs2 hfold

theorem exists_lower_bound (l : List Int) (hl : l.Pairwise (· < ·)) :
    ∃ B : Int, ∀ t ∈ l, B < t := by
  cases l with
  | nil => exact ⟨0, by simp⟩
  | cons a ts =>
    refine ⟨a - 1, ?_⟩
    intro t ht
    rcases List.mem_cons.mp ht with ht | ht
    · omega
    · have := List.rel_of_pairwise_cons hl ht
      omega

end Arc

namespace Arc

/-- `C5`: in every arc produced by `generate_measurements`, each device's
measurement epochs are strictly increasing and consecutive measurements of
the same device are at least its configured sampling duration apart.
Hypotheses: the devices time-tag measurements with the epoch of the state
they measure, the trajectory query returns the state at the queried epoch,
and the `HashMap` iteration order enumerates each key once. -/
theorem generate_per_device_gaps {St Rng Msr : Type}
    (sim : TrackingArcSim St Rng Msr) (order : List String)
    (μ : Msr → Int) (stEpoch : St → Int)
    (HtagG : ∀ n (st : St) (r : Rng) m r2,
      measureOf sim.devices n st r = (some m, r2) → μ m = stEpoch st)
    (Htraj : ∀ (t : Int) (st : St),
      sim.trajectory.sample t = some st → stEpoch st = t)
    (Hnodup : order.Nodup) (arc : List (String × Msr))
    (hrun : sim.generate_measurements order = some arc) :
    ∀ n, (epochsOf μ n arc).Chain'
      (fun a b => a < b ∧ a + (cfgTotal sim.configs n).sampling ≤ b) := by
  intro n
  unfold TrackingArcSim.generate_measurements generateAux at hrun
  obtain ⟨gs2, hfold, hmsrs⟩ := Option.map_eq_some'.mp hrun
  obtain ⟨B, hB⟩ := exists_lower_bound _ (epochs_pairwise sim.time_series)
  have hinit : DevInv (cfgTotal sim.configs n)
      (({ sched := fun _ => none, rng := sim.rng, msrs := [] }
        : GenState Rng Msr).sched n)
      (epochsOf μ n ({ sched := fun _ => none, rng := sim.rng, msrs := [] }
        : GenState Rng Msr).msrs) B := by
    refine ⟨List.chain'_nil, ?_, ?_, ?_⟩ <;> simp [epochsOf]
  obtain ⟨B2, hfin⟩ := run_inv (measureOf sim.devices) (cfgTotal sim.configs)
    sim.trajectory.sample order μ stEpoch (HtagG n) Htraj Hnodup
    sim.time_series.epochs (epochs_pairwise _) _ B hB hinit gs2 hfold
  rw [← hmsrs]
  exact hfin.1

theorem devStep_emit_not_blocked (mf : String → St → Rng → Option Msr × Rng)
    (cfgs : String → TrkConfig) (t : Int) (st : St) (gs : GenState Rng Msr)
    (name : String)
    (hne : (devStep mf cfgs t st gs name).msrs ≠ gs.msrs) :
    (startBlocked (cfgs name) t || endBlocked (cfgs name) t
      || schedBlocked (cfgs name) t (gs.sched name)) = false := by
  by_cases hb : (startBlocked (cfgs name) t || endBlocked (cfgs name) t
      || schedBlocked (cfgs name) t (gs.sched name)) = true
  · exfalso
    apply hne
    unfold devStep
    simp [hb]
  · simpa using hb

/-- `C6`: the simulator never emits a measurement for a device before its
explicit start epoch or after its explicit end epoch, and — under an
intermittent `{on, off}` schedule — a step that emits never does so more
than `on` after the recorded pass start, nor within `off` of the recorded
pass end. -/
theorem generate_respects_availability {St Rng Msr : Type}
    (sim : TrackingArcSim St Rng Msr) (order : List String)
    (μ : Msr → Int) (stEpoch : St → Int)
    (HtagG : ∀ n (st : St) (r : Rng) m r2,
      measureOf sim.devices n st r = (some m, r2) → μ m = stEpoch st)
    (Htraj : ∀ (t : Int) (st : St),
      sim.trajectory.sample t = some st → stEpoch st = t)
    (Hnodup : order.Nodup) (arc : List (String × Msr))
    (hrun : sim.generate_measurements order = some arc) :
    (∀ n s, (cfgTotal sim.configs n).start = .epoch s →
      (epochsOf μ n arc).all (fun e => decide (s ≤ e)) = true)
    ∧ (∀ n e2, (cfgTotal sim.configs n).stop = .epoch e2 →
      (epochsOf μ n arc).all (fun e => decide (e ≤ e2)) = true)
    ∧ (∀ (gs : GenState Rng Msr) (n : String) (t : Int) (st : St)
        (onD offD : Int),
        (cfgTotal sim.configs n).schedule = .intermittent onD offD →
        (devStep (measureOf sim.devices) (cfgTotal sim.configs) t st gs n).msrs
          ≠ gs.msrs →
        (∀ ds s, gs.sched n = some ds → ds.start = some s → t - s ≤ onD)
        ∧ (∀ ds e, gs.sched n = some ds → ds.stop = some e → offD < t - e)) := by
  have hbounds : ∀ n, ∀ e ∈ epochsOf μ n arc,
      (∀ s, (cfgTotal sim.configs n).start = .epoch s → s ≤ e)
      ∧ (∀ e2, (cfgTotal sim.configs n).stop = .epoch e2 → e ≤ e2) := by
    intro n
    unfold TrackingArcSim.generate_measurements generateAux at hrun
    obtain ⟨gs2, hfold, hmsrs⟩ := Option.map_eq_some'.mp hrun
    obtain ⟨B, hB⟩ := exists_lower_bound _ (epochs_pairwise sim.time_series)
    have hinit : DevInv (cfgTotal sim.configs n)
        (({ sched := fun _ => none, rng := sim.rng, msrs := [] }
          : GenState Rng Msr).sched n)
        (epochsOf μ n ({ sched := fun _ => none, rng := sim.rng, msrs := [] }
          : GenState Rng Msr).msrs) B := by
      refine ⟨List.chain'_nil, ?_, ?_, ?_⟩ <;> simp [epochsOf]
    obtain ⟨B2, hfin⟩ := run_inv (measureOf sim.devices) (cfgTotal sim.configs)
      sim.trajectory.sample order μ stEpoch (HtagG n) Htraj Hnodup
      sim.time_series.epochs (epochs_pairwise _) _ B hB hinit gs2 hfold
    rw [← hmsrs]
    exact hfin.2.1
  refine ⟨?_, ?_, ?_⟩
  · intro n s hs
    rw [List.all_eq_true]
    intro e he
    exact decide_eq_true (((hbounds n e he).1 s hs))
  · intro n e2 he2
    rw [List.all_eq_true]
    intro e he
    exact decide_eq_true (((hbounds n e he).2 e2 he2))
  · intro gs n t st onD offD hschedI hne
    have hbf := devStep_emit_not_blocked (measureOf sim.devices)
      (cfgTotal sim.configs) t st gs n hne
    have hsf : schedBlocked (cfgTotal sim.configs n) t (gs.sched n) = false :=
      (Bool.or_eq_false_iff.mp hbf).2
    constructor
    · intro ds s hds hdstart
      unfold schedBlocked at hsf
      rw [hds] at hsf
      rcases Bool.or_eq_false_iff.mp hsf with ⟨_, hrt⟩
      rw [hschedI] at hrt
      rcases Bool.or_eq_false_iff.mp hrt with ⟨hon, _⟩
      rw [hdstart] at hon
      simp at hon
      omega
    · intro ds e hds hdstop
      unfold schedBlocked at hsf
      rw [hds] at hsf
      rcases Bool.or_eq_false_iff.mp hsf with ⟨_, hrt⟩
      rw [hschedI] at hrt
      rcases Bool.or_eq_false_iff.mp hrt with ⟨_, hoff⟩
      rw [hdstop] at hoff
      simp at hoff
      omega

end Arc

namespace Arc

/-- A device that time-tags: its measurement is the epoch of the measured
state, and it never consumes randomness. -/
def devW : DeviceM Int Nat Int :=
  { name := "w", measure := fun st r => (some st, r) }

/-- A trajectory spanning epochs 0..2 whose state at an epoch is that
epoch. -/
def trajW : TrajM Int :=
  { firstEpoch := 0, lastEpoch := 2, sample := fun t => some t }

/-- Sampling every 2 ns, always visible, continuous. -/
def configsW : String → Option TrkConfig :=
  fun _ => some { sampling := 2, start := .visible, stop := .visible,
                  schedule := .continuous }

/-- A simulator over `devW`/`trajW`/`configsW`, ticking every 1 ns. -/
def simW : TrackingArcSim Int Nat Int :=
  { devices := [devW], trajectory := trajW, configs := configsW,
    rng := 0, time_series := { start := 0, stop := 2, step := 1 } }

theorem measureOf_devW_tags : ∀ (n : String) (st : Int) (r : Nat) m r2,
    measureOf [devW] n st r = (some m, r2) → (fun x : Int => x) m
      = (fun s : Int => s) st := by
  intro n st r m r2 h
  by_cases hn : ("w" == n)
  · simp [measureOf, List.find?, devW, hn] at h
    exact h.1.symm
  · simp [measureOf, List.find?, devW, hn] at h

theorem generate_per_device_gaps_witness :
    (epochsOf (fun m : Int => m) "w" [("w", (0 : Int)), ("w", 2)]).Chain'
      (fun a b => a < b ∧ a + (cfgTotal configsW "w").sampling ≤ b) :=
  generate_per_device_gaps simW ["w"] (fun m => m) (fun s => s)
    measureOf_devW_tags
    (by intro t st h; simp [simW, trajW] at h; simpa using h.symm)
    (by decide) [("w", 0), ("w", 2)] (by decide) "w"

/-- Like `devW`, named "v". -/
def devV : DeviceM Int Nat Int :=
  { name := "v", measure := fun st r => (some st, r) }

/-- Explicit availability bounds `[1, 5]` and an intermittent `{10, 3}`
schedule, sampling every 1 ns. -/
def configsV : String → Option TrkConfig :=
  fun _ => some { sampling := 1, start := .epoch 1, stop := .epoch 5,
                  schedule := .intermittent 10 3 }

/-- A simulator over `devV`, ticking at epochs 0, 1, 2. -/
def simV : TrackingArcSim Int Nat Int :=
  { devices := [devV], trajectory := trajW, configs := configsV,
    rng := 0, time_series := { start := 0, stop := 2, step := 1 } }

theorem measureOf_devV_tags : ∀ (n : String) (st : Int) (r : Nat) m r2,
    measureOf [devV] n st r = (some m, r2) → (fun x : Int => x) m
      = (fun s : Int => s) st := by
  intro n st r m r2 h
  by_cases hn : ("v" == n)
  · simp [measureOf, List.find?, devV, hn] at h
    exact h.1.symm
  · simp [measureOf, List.find?, devV, hn] at h

theorem generate_respects_availability_witness :
    (epochsOf (fun m : Int => m) "v" [("v", (1 : Int)), ("v", 2)]).all
      (fun e => decide (1 ≤ e)) = true :=
  (generate_respects_availability simV ["v"] (fun m => m) (fun s => s)
    measureOf_devV_tags
    (by intro t st h; simp [simV, trajW] at h; simpa using h.symm)
    (by decide) [("v", 1), ("v", 2)] (by decide)).1 "v" 1 rfl

theorem with_rng_time_series_witness :
    (with_rng [devW] trajW configsW (0 : Nat)).timeSeriesOf
      = some (TimeSeries.inclusive 0 2 (listGcd (ratesOf [devW] configsW))) :=
  (with_rng_time_series [devW] trajW configsW 0 (by simp)
    (fun _ _ => rfl)).2.1

theorem with_rng_configError_iff_witness :
    (with_rng [devW] trajW (fun _ => none) (0 : Nat)).isErr = true
    ∧ (with_rng [devW] trajW configsW (0 : Nat)).isOk = true :=
  ⟨(with_rng_configError_iff [devW] trajW (fun _ => none) 0 (by simp)).1.mpr
      ⟨devW, by simp, rfl⟩,
   (with_rng_configError_iff [devW] trajW configsW 0 (by simp)).2.mpr
      (fun _ _ => rfl)⟩

theorem with_rng_empty_panics_witness :
    with_rng ([] : List (DeviceM Int Nat Int)) trajW configsW (0 : Nat)
      = .panicked
    ∧ with_rng [devW] trajW configsW (0 : Nat) ≠ .panicked :=
  ⟨with_rng_empty_panics.1 trajW configsW 0,
   (with_rng_empty_panics.2 [devW] trajW configsW 0 (by simp)).1⟩

end Arc

namespace Md

/-- The Lagrange basis polynomial for node `i`, evaluated at `x`. -/
def lagBasis (n : ℕ) (xs : Fin n → ℚ) (i : Fin n) (x : ℚ) : ℚ :=
  ∏ k ∈ Finset.univ.erase i, (x - xs k) / (xs i - xs k)

/-- The derivative of `lagBasis` (sum over the product's factors), evaluated
at `x`. -/
def lagDeriv (n : ℕ) (xs : Fin n → ℚ) (i : Fin n) (x : ℚ) : ℚ :=
  ∑ k ∈ Finset.univ.erase i,
    (1 / (xs i - xs k))
      * ∏ m ∈ (Finset.univ.erase i).erase k, (x - xs m) / (xs i - xs m)

/-- Modelled from the spec: `hermite_eval` lives in `src/polyfit/hermite.rs`,
which is not under `src/`.  Per the spec (§4.3 and glossary), it evaluates
the Hermite interpolant — "polynomial interpolation using function values
and first derivatives at sample points" — and its first derivative at the
query abscissa.  This model uses the closed Hermite–Lagrange basis form: with
`c i = lagDeriv i (xs i)`, the interpolant is
`p x = ∑ i, (fs i + (x - xs i) * (dfs i - 2 * fs i * c i)) * (lagBasis i x)²`
and the second component is its derivative. -/
def hermite_eval (n : ℕ) (xs fs dfs : Fin n → ℚ) (x : ℚ) : ℚ × ℚ :=
  (∑ i, (fs i + (x - xs i) * (dfs i - 2 * fs i * lagDeriv n xs i (xs i)))
      * (lagBasis n xs i x) ^ 2,
   ∑ i, ((dfs i - 2 * fs i * lagDeriv n xs i (xs i)) * (lagBasis n xs i x) ^ 2
      + (fs i + (x - xs i) * (dfs i - 2 * fs i * lagDeriv n xs i (xs i)))
        * (2 * lagBasis n xs i x * lagDeriv n xs i x)))

theorem lagBasis_ne {n : ℕ} (xs : Fin n → ℚ) {i j : Fin n} (h : i ≠ j) :
    lagBasis n xs i (xs j) = 0 := by
  unfold lagBasis
  refine Finset.prod_eq_zero
    (Finset.mem_erase.mpr ⟨Ne.symm h, Finset.mem_univ j⟩) ?_
  simp

theorem lagBasis_self {n : ℕ} (xs : Fin n → ℚ)
    (hinj : Function.Injective xs) (j : Fin n) :
    lagBasis n xs j (xs j) = 1 := by
  unfold lagBasis
  refine Finset.prod_eq_one ?_
  intro k hk
  have hkj : k ≠ j := (Finset.mem_erase.mp hk).1
  have hne : xs j - xs k ≠ 0 :=
    sub_ne_zero.mpr fun hcon => hkj (hinj hcon).symm
  exact div_self hne

/-- At a sample abscissa the Hermite interpolant takes the sample value. -/
theorem hermite_eval_fst_node {n : ℕ} (xs fs dfs : Fin n → ℚ)
    (hinj : Function.Injective xs) (j : Fin n) :
    (hermite_eval n xs fs dfs (xs j)).1 = fs j := by
  unfold hermite_eval
  simp only
  rw [Finset.sum_eq_single j]
  · rw [lagBasis_self xs hinj j]
    ring
  · intro i _ hij
    rw [lagBasis_ne xs hij]
    ring
  · intro hj
    exact absurd (Finset.mem_univ j) hj

/-- At a sample abscissa the Hermite interpolant's derivative takes the
sample derivative. -/
theorem hermite_eval_snd_node {n : ℕ} (xs fs dfs : Fin n → ℚ)
    (hinj : Function.Injective xs) (j : Fin n) :
    (hermite_eval n xs fs dfs (xs j)).2 = dfs j := by
  unfold hermite_eval
  simp only
  rw [Finset.sum_eq_single j]
  · rw [lagBasis_self xs hinj j]
    ring
  · intro i _ hij
    rw [lagBasis_ne xs hij]
    ring
  · intro hj
    exact absurd (Finset.mem_univ j) hj

/-- The interpolation-relevant fields of `Orbit`: epoch (TDB seconds, per the
spec's single TDB/ET scale) and Cartesian position/velocity (km, km/s). -/
structure Orbit where
  epoch : ℚ
  x : ℚ
  y : ℚ
  z : ℚ
  vx : ℚ
  vy : ℚ
  vz : ℚ
deriving DecidableEq

/-- `Orbit::interpolate` (src/md/trajectory/mod.rs, lines 121–175): gather
the samples' epochs, positions and velocities, Hermite-evaluate each axis at
the query epoch, and overwrite the six Cartesian fields of `self`. -/
def Orbit.interpolate (self : Orbit) (epoch : ℚ) (states : List Orbit) : Orbit :=
  let xs : Fin states.length → ℚ := fun i => (states.get i).epoch
  let px := hermite_eval states.length xs (fun i => (states.get i).x)
    (fun i => (states.get i).vx) epoch
  let py := hermite_eval states.length xs (fun i => (states.get i).y)
    (fun i => (states.get i).vy) epoch
  let pz := hermite_eval states.length xs (fun i => (states.get i).z)
    (fun i => (states.get i).vz) epoch
  { self with x := px.1, y := py.1, z := pz.1,
              vx := px.2, vy := py.2, vz := pz.2 }

/-- `C8`: for samples with pairwise distinct epochs, `Orbit::interpolate`
evaluated at a sample epoch returns that sample's position and velocity
exactly — in particular the position error is below the spec's 1e-9 km. -/
theorem orbit_interpolate_reproduces_nodes (self : Orbit) (states : List Orbit)
    (j : Fin states.length)
    (hinj : Function.Injective fun i : Fin states.length => (states.get i).epoch) :
    ((Orbit.interpolate self ((states.get j).epoch) states).x = (states.get j).x
      ∧ (Orbit.interpolate self ((states.get j).epoch) states).y = (states.get j).y
      ∧ (Orbit.interpolate self ((states.get j).epoch) states).z = (states.get j).z
      ∧ (Orbit.interpolate self ((states.get j).epoch) states).vx = (states.get j).vx
      ∧ (Orbit.interpolate self ((states.get j).epoch) states).vy = (states.get j).vy
      ∧ (Orbit.interpolate self ((states.get j).epoch) states).vz = (states.get j).vz)
    ∧ ((Orbit.interpolate self ((states.get j).epoch) states).x - (states.get j).x) ^ 2
      + ((Orbit.interpolate self ((states.get j).epoch) states).y - (states.get j).y) ^ 2
      + ((Orbit.interpolate self ((states.get j).epoch) states).z - (states.get j).z) ^ 2
      < ((1 : ℚ) / 1000000000) ^ 2 := by
  have hfx := hermite_eval_fst_node (fun i : Fin states.length => (states.get i).epoch)
    (fun i => (states.get i).x) (fun i => (states.get i).vx) hinj j
  have hfy := hermite_eval_fst_node (fun i : Fin states.length => (states.get i).epoch)
    (fun i => (states.get i).y) (fun i => (states.get i).vy) hinj j
  have hfz := hermite_eval_fst_node (fun i : Fin states.length => (states.get i).epoch)
    (fun i => (states.get i).z) (fun i => (states.get i).vz) hinj j
  have hdx := hermite_eval_snd_node (fun i : Fin states.length => (states.get i).epoch)
    (fun i => (states.get i).x) (fun i => (states.get i).vx) hinj j
  have hdy := hermite_eval_snd_node (fun i : Fin states.length => (states.get i).epoch)
    (fun i => (states.get i).y) (fun i => (states.get i).vy) hinj j
  have hdz := hermite_eval_snd_node (fun i : Fin states.length => (states.get i).epoch)
    (fun i => (states.get i).z) (fun i => (states.get i).vz) hinj j
  refine ⟨⟨hfx, hfy, hfz, hdx, hdy, hdz⟩, ?_⟩
  show ((hermite_eval _ _ _ _ _).1 - _) ^ 2 + ((hermite_eval _ _ _ _ _).1 - _) ^ 2
    + ((hermite_eval _ _ _ _ _).1 - _) ^ 2 < _
  rw [hfx, hfy, hfz]
  norm_num

end Md

namespace Md

/-- A sample orbit at epoch 0. -/
def orbA : Orbit :=
  { epoch := 0, x := 1, y := 2, z := 3, vx := 4, vy := 5, vz := 6 }

/-- A sample orbit at epoch 1. -/
def orbB : Orbit :=
  { epoch := 1, x := 10, y := 20, z := 30, vx := 40, vy := 50, vz := 60 }

/-- The state whose non-interpolated fields are carried through. -/
def orbSelf : Orbit :=
  { epoch := 99, x := 0, y := 0, z := 0, vx := 0, vy := 0, vz := 0 }

theorem orbit_interpolate_reproduces_nodes_witness :
    ((Orbit.interpolate orbSelf 0 [orbA, orbB]).x = orbA.x
      ∧ (Orbit.interpolate orbSelf 0 [orbA, orbB]).y = orbA.y
      ∧ (Orbit.interpolate orbSelf 0 [orbA, orbB]).z = orbA.z
      ∧ (Orbit.interpolate orbSelf 0 [orbA, orbB]).vx = orbA.vx
      ∧ (Orbit.interpolate orbSelf 0 [orbA, orbB]).vy = orbA.vy
      ∧ (Orbit.interpolate orbSelf 0 [orbA, orbB]).vz = orbA.vz)
    ∧ ((Orbit.interpolate orbSelf 0 [orbA, orbB]).x - orbA.x) ^ 2
      + ((Orbit.interpolate orbSelf 0 [orbA, orbB]).y - orbA.y) ^ 2
      + ((Orbit.interpolate orbSelf 0 [orbA, orbB]).z - orbA.z) ^ 2
      < ((1 : ℚ) / 1000000000) ^ 2 :=
  orbit_interpolate_reproduces_nodes orbSelf [orbA, orbB] ⟨0, by decide⟩
    (by decide)

/-- The interpolation-relevant fields of `Spacecraft`: an orbit and the fuel
mass (kg). -/
structure Spacecraft where
  orbit : Orbit
  fuel_mass_kg : ℚ
deriving DecidableEq

/-- `Spacecraft::epoch` is its orbit's epoch (TDB seconds). -/
def Spacecraft.epoch (self : Spacecraft) : ℚ := self.orbit.epoch

/-- `Spacecraft::with_orbit`. -/
def Spacecraft.with_orbit (self : Spacecraft) (orbit : Orbit) : Spacecraft :=
  { self with orbit := orbit }

/-- `Spacecraft::interpolate` (src/md/trajectory/mod.rs, lines 234–251):
Hermite-interpolate the orbit, then set the fuel mass to
`(last.fuel - first.fuel) / (last.epoch - first.epoch)` — the slope of the
fuel line, not its value at the query epoch.  `states.first().unwrap()`
panics on an empty slice, modelled by `none`. -/
def Spacecraft.interpolate (self : Spacecraft) (epoch : ℚ)
    (states : List Spacecraft) : Option Spacecraft :=
  match states with
  | [] => none
  | s0 :: rest =>
    let orbit := Orbit.interpolate self.orbit epoch
      ((s0 :: rest).map Spacecraft.orbit)
    let lastS := (s0 :: rest).getLast (List.cons_ne_nil s0 rest)
    let fuel_kg := (lastS.fuel_mass_kg - s0.fuel_mass_kg)
      / (lastS.epoch - s0.epoch)
    some { (self.with_orbit orbit) with fuel_mass_kg := fuel_kg }

/-- Modelled from the spec: "Fuel is linearly interpolated when present" —
the value at `t` of the line through `(t0, f0)` and `(t1, f1)`. -/
def linearInterp (t0 f0 t1 f1 t : ℚ) : ℚ :=
  f0 + (t - t0) * (f1 - f0) / (t1 - t0)

/-- A spacecraft sample with the given epoch and fuel mass. -/
def scSample (t f : ℚ) : Spacecraft :=
  { orbit := { epoch := t, x := 0, y := 0, z := 0, vx := 0, vy := 0, vz := 0 },
    fuel_mass_kg := f }

/-- `C2`: on two samples holding a constant 10 kg of fuel at epochs 0 s and
100 s, `Spacecraft::interpolate` at t = 50 s returns 0 kg of fuel — the
slope `(10 − 10)/100` — where linear interpolation of the samples' fuel
masses gives 10 kg.  The code divides the fuel difference by the time span
but never multiplies by `(t − t0)` nor adds the first sample's fuel, despite
its own comment "Fuel is linearly interpolated". -/
theorem spacecraft_interpolate_fuel_is_slope :
    (Spacecraft.interpolate (scSample 0 10) 50
        [scSample 0 10, scSample 100 10]).map Spacecraft.fuel_mass_kg = some 0
    ∧ linearInterp 0 10 100 10 50 = 10
    ∧ (0 : ℚ) ≠ 10 := by
  refine ⟨?_, by norm_num [linearInterp], by norm_num⟩
  have h : (Spacecraft.interpolate (scSample 0 10) 50
      [scSample 0 10, scSample 100 10]).map Spacecraft.fuel_mass_kg
      = some (((10 : ℚ) - 10) / (100 - 0)) := rfl
  rw [h]
  norm_num

end Md

namespace Dyn

/-- The propulsion subsystem, reduced to what `Spacecraft` reads from it:
its dry and fuel masses, its `state()` scalar, and its equations of
motion. -/
structure Propulsion where
  dry_mass : ℚ
  fuel_mass : ℚ
  stateVal : ℚ
  eomFn : ℚ → (Fin 7 → ℚ) → (Fin 7 → ℚ)

/-- The celestial dynamics, reduced to `state()` (kept abstract in `OrbT`)
and the six-dimensional equations of motion. -/
structure CelestialDynamics (OrbT : Type) where
  stateVal : OrbT
  eomFn : ℚ → (Fin 6 → ℚ) → (Fin 6 → ℚ)

/-- The solar-radiation-pressure model, reduced to its equations of motion
(which read the spacecraft mass from slot 6 of the state vector). -/
structure SolarPressure where
  eomFn : ℚ → (Fin 7 → ℚ) → (Fin 7 → ℚ)

/-- The dynamics wrapper `Spacecraft` (src/dynamics/spacecraft.rs, lines
11–18). -/
structure Spacecraft (OrbT : Type) where
  celestial : CelestialDynamics OrbT
  prop : Option Propulsion
  srp : Option SolarPressure
  dry_mass : ℚ

/-- `Spacecraft::with_prop` (lines 22–36): stores the dry mass both on the
wrapper and on the propulsion subsystem. -/
def Spacecraft.with_prop {OrbT : Type} (celestial : CelestialDynamics OrbT)
    (prop : Propulsion) (dry_mass : ℚ) : Spacecraft OrbT :=
  { celestial := celestial, prop := some { prop with dry_mass := dry_mass },
    srp := none, dry_mass := dry_mass }

/-- `Spacecraft::with_srp` (lines 39–52): no propulsion subsystem; the dry
mass is stored only on the wrapper. -/
def Spacecraft.with_srp {OrbT : Type} (celestial : CelestialDynamics OrbT)
    (srp : SolarPressure) (dry_mass : ℚ) : Spacecraft OrbT :=
  { celestial := celestial, prop := none, srp := some srp,
    dry_mass := dry_mass }

/-- `SpacecraftState` (lines 131–136). -/
structure SpacecraftState (OrbT : Type) where
  orbit : OrbT
  dry_mass : ℚ
  fuel_mass : ℚ

/-- `Spacecraft::state` (lines 63–77): both mass fields read the propulsion
subsystem and fall back to `0.0` when it is absent — the wrapper's own
`dry_mass` is not consulted. -/
def Spacecraft.state {OrbT : Type} (self : Spacecraft OrbT) :
    SpacecraftState OrbT :=
  { orbit := self.celestial.stateVal,
    dry_mass := match self.prop with
      | some p => p.dry_mass
      | none => 0,
    fuel_mass := match self.prop with
      | some p => p.stateVal
      | none => 0 }

/-- `state.fixed_rows::<U6>(0)`. -/
def firstSix (v : Fin 7 → ℚ) : Fin 6 → ℚ := fun i => v i.castSucc

/-- `chain(d_x_celestial, [0.0])`: the 6-vector padded with a zero mass
slot. -/
def pad (v : Fin 6 → ℚ) : Fin 7 → ℚ :=
  fun i => if h : (i : ℕ) < 6 then v ⟨i, h⟩ else 0

/-- `Spacecraft::eom` (lines 102–128): celestial derivative padded with a
zero fuel slot; with propulsion, add its derivative and count fuel in the
total mass; with SRP, hide the total mass in slot 6 of the state passed to
`srp.eom` and add its derivative. -/
def Spacecraft.eom {OrbT : Type} (self : Spacecraft OrbT) (t : ℚ)
    (state : Fin 7 → ℚ) : Fin 7 → ℚ :=
  let d_x := pad (self.celestial.eomFn t (firstSix state))
  match self.prop with
  | some prop =>
    let prop_dt := prop.eomFn t state
    let total_mass := self.dry_mass + (prop.fuel_mass + prop_dt 6)
    let d_x2 := fun i => d_x i + prop_dt i
    (match self.srp with
     | some srp =>
       fun i => d_x2 i + srp.eomFn t (Function.update state 6 total_mass) i
     | none => d_x2)
  | none =>
    let total_mass := self.dry_mass
    (match self.srp with
     | some srp =>
       fun i => d_x i + srp.eomFn t (Function.update state 6 total_mass) i
     | none => d_x)

/-- `C9`: a `with_srp` spacecraft (SRP enabled, no propulsion) reports
`dry_mass = 0` and `fuel_mass = 0` from `state()` whatever dry mass `d` it
was built with, yet `eom` passes that same `d` as the total mass (slot 6 of
the state vector handed to the SRP model). -/
theorem with_srp_state_masses_zero {OrbT : Type}
    (cel : CelestialDynamics OrbT) (srp : SolarPressure) (d t : ℚ)
    (state : Fin 7 → ℚ) :
    (Spacecraft.with_srp cel srp d).state.dry_mass = 0
    ∧ (Spacecraft.with_srp cel srp d).state.fuel_mass = 0
    ∧ (Spacecraft.with_srp cel srp d).eom t state
      = fun i => pad (cel.eomFn t (firstSix state)) i
          + srp.eomFn t (Function.update state 6 d) i :=
  ⟨rfl, rfl, rfl⟩

end Dyn
